import Mathlib

/-!
Verification of the image-diff command-line utility
(`scripts/imgdiff.py`): a shallow embedding of its data model and of the
`main` routine, together with theorems settling the specified behaviour.

Pixel channel values are natural numbers (the tool works on 8-bit RGBA
rasters); the floating-point root-mean-square computation of the source is
modelled over the real numbers, with the comparisons the program performs
(`rms > 0`, `rms <= max_rms`) carried out on the exact rational square of
the RMS, and lemmas showing those decision procedures agree with the
real-valued comparisons.
-/

namespace ImgDiff

/-- One RGBA pixel: four channel values (red, green, blue, alpha). -/
structure Pixel where
  r : Nat
  g : Nat
  b : Nat
  a : Nat
deriving DecidableEq, Repr

/-- An in-memory raster as produced by `Image.open(path).convert("RGBA")`:
a width/height pair and the per-pixel RGBA values in row-major order. -/
structure Image where
  width : Nat
  height : Nat
  pixels : List Pixel
deriving DecidableEq, Repr

/-- `im.size` in the source: the `(width, height)` pair. -/
def Image.size (im : Image) : Nat × Nat := (im.width, im.height)

/-- A loaded image is well formed when it holds one pixel per raster cell. -/
def Image.wf (im : Image) : Prop := im.pixels.length = im.width * im.height

instance (im : Image) : Decidable im.wf := by
  unfold Image.wf; infer_instance

/-- Absolute difference of two channel values. -/
def natAbsDiff (x y : Nat) : Nat := max x y - min x y

/-- Per-channel absolute difference of two RGBA pixels, as computed by
`PIL.ImageChops.difference` on 8-bit channels. -/
def pixelDiff (p q : Pixel) : Pixel :=
  ⟨natAbsDiff p.r q.r, natAbsDiff p.g q.g, natAbsDiff p.b q.b, natAbsDiff p.a q.a⟩

/-- `ImageChops.difference(baseline, current)`: the image of per-pixel,
per-channel absolute differences, with the baseline image dimensions. -/
def difference (b c : Image) : Image :=
  ⟨b.width, b.height, List.zipWith pixelDiff b.pixels c.pixels⟩

/-- Channel projection: channels 0..3 are r, g, b, a. -/
def Pixel.channel (p : Pixel) : Fin 4 → Nat
  | 0 => p.r
  | 1 => p.g
  | 2 => p.b
  | 3 => p.a

/-- Sum over all pixels of the squared value of one channel
(`PIL.ImageStat.Stat.sum2` for that band). -/
def sumSq (im : Image) (ch : Fin 4) : Nat :=
  (im.pixels.map fun p => p.channel ch * p.channel ch).sum

/-- Number of raster cells of the image (`Stat.count` per band). -/
def pixelCount (im : Image) : Nat := im.width * im.height

/-- The square of one entry of `Stat(diff).rms`: mean over all pixels of the
squared channel value, as an exact rational. -/
def channelRmsSq (im : Image) (ch : Fin 4) : ℚ :=
  (sumSq im ch : ℚ) / (pixelCount im : ℚ)

/-- The squares of the entries of the list `Stat(diff).rms` (one per RGBA
band), as exact rationals. -/
def rmsChannelsSq (im : Image) : List ℚ :=
  [channelRmsSq im 0, channelRmsSq im 1, channelRmsSq im 2, channelRmsSq im 3]

/-- The square of the aggregate RMS the source computes:
`sum(v * v for v in rms_channels) / len(rms_channels)` with
`rms_channels = Stat(diff).rms` (4 channels), as an exact rational. -/
def aggRmsSq (im : Image) : ℚ :=
  (rmsChannelsSq im).sum / ((rmsChannelsSq im).length : ℚ)

/-- Decision procedure for the source comparison `rms > 0`, carried out on
the exact square of the RMS (`rms > 0` iff its square is positive). -/
def rmsPos (q : ℚ) : Bool := decide (0 < q)

/-- Decision procedure for the source comparison `rms <= max_rms`, carried
out on the exact square of the RMS: for a nonnegative `rms`,
`rms <= t` iff `0 <= t` and `rms * rms <= t * t`. -/
def rmsLeB (q t : ℚ) : Bool := decide (0 ≤ t) && decide (q ≤ t * t)

/-- Parsed command-line arguments of the tool. -/
structure Args where
  baseline : String
  current : String
  out : String
  maxRms : ℚ
deriving DecidableEq, Repr

/-- A message the tool can emit, holding the data interpolated into the
corresponding format string of the source. -/
inductive Msg where
  /-- "Pillow is required. Install with: pip install pillow" -/
  | pillowMissing : Msg
  /-- "Failed to read images: {exc}" -/
  | failedToRead : Msg
  /-- "Different sizes: {baseline.size} vs {current.size}" -/
  | differentSizes (s1 s2 : Nat × Nat) : Msg
  /-- "Images differ (RMS={rms:.4f}, threshold={max_rms:.4f}). Wrote {out}"
  (the payload carries the exact square of the RMS, the threshold and the
  output path). -/
  | imagesDiffer (rmsSq : ℚ) (threshold : ℚ) (outPath : String) : Msg
  /-- The usage message argparse prints when command-line parsing fails. -/
  | usage : Msg
deriving DecidableEq, Repr

/-- Observable outcome of one invocation: process exit code, the lines
written to standard output and to standard error, and the diff image
persisted to disk (output path and contents), if any. -/
structure RunResult where
  exitCode : Nat
  stdout : List Msg
  stderr : List Msg
  written : Option (String × Image)
deriving DecidableEq, Repr

/-- The body of `main` after argument parsing. `pillow` tells whether the
imaging dependency imports; `loadB` / `loadC` are the results of opening and
RGBA-converting the two input files (`none` models an exception). -/
def run (pillow : Bool) (loadB loadC : Option Image) (args : Args) : RunResult :=
  if pillow = false then
    ⟨2, [], [Msg.pillowMissing], none⟩
  else
    match loadB, loadC with
    | some b, some c =>
      if b.size ≠ c.size then
        ⟨1, [], [Msg.differentSizes b.size c.size], none⟩
      else
        let diff := difference b c
        let q := aggRmsSq diff
        let written := if rmsPos q then some (args.out, diff) else none
        if rmsLeB q args.maxRms then
          ⟨0, [], [], written⟩
        else
          ⟨1, [Msg.imagesDiffer q args.maxRms args.out], [], written⟩
    | _, _ => ⟨2, [], [Msg.failedToRead], none⟩

/-! ### The real-valued RMS of the source -/

/-- One entry of `Stat(diff).rms`: the square root of the mean of the
squared channel values, as a real number. -/
noncomputable def channelRms (im : Image) (ch : Fin 4) : ℝ :=
  Real.sqrt ((channelRmsSq im ch : ℚ) : ℝ)

/-- The list `rms_channels = Stat(diff).rms` of the source: the four
per-band RMS values. -/
noncomputable def rmsChannels (im : Image) : List ℝ :=
  [channelRms im 0, channelRms im 1, channelRms im 2, channelRms im 3]

/-- The aggregate RMS the source computes:
`(sum(v * v for v in rms_channels) / len(rms_channels)) ** 0.5`. -/
noncomputable def aggRms (im : Image) : ℝ :=
  Real.sqrt (((rmsChannels im).map fun v => v * v).sum / ((rmsChannels im).length : ℝ))

/-! ### The specification's aggregate RMS formula

A second definition of the aggregate RMS, written from the specification's
words rather than from the source: the per-channel RMS is "the
root-mean-square over all pixels of that channel of the absolute per-pixel
difference", and the aggregate is `sqrt(mean(channel_rms_i^2))` over the
four channel values. -/

/-- The list of absolute per-pixel differences of one channel of the two
input images. -/
def specChannelDiffs (b c : Image) (ch : Fin 4) : List Nat :=
  List.zipWith (fun p q => natAbsDiff (p.channel ch) (q.channel ch)) b.pixels c.pixels

/-- Per the specification: the root-mean-square over all pixels of one
channel of the absolute per-pixel difference. -/
noncomputable def specChannelRms (b c : Image) (ch : Fin 4) : ℝ :=
  Real.sqrt ((((((specChannelDiffs b c ch).map fun d => d * d)).sum : ℕ) : ℝ) /
    ((specChannelDiffs b c ch).length : ℝ))

/-- Per the specification: the aggregate RMS, `sqrt(mean(channel_rms_i^2))`
over the four channel values. -/
noncomputable def specAggRms (b c : Image) : ℝ :=
  Real.sqrt ((∑ ch : Fin 4, specChannelRms b c ch ^ 2) / 4)

/-! ### The command-line surface

The source builds an `argparse` parser with positionals `baseline` and
`current`, option `--out` defaulting to `"diff.png"`, and float option
`--max-rms` defaulting to `0.0`. The model below embeds the behaviour of
Python's `argparse` for that parser: arguments are consumed left to right,
a repeated option keeps its last value, and any parse error (an
unrecognized option, a `--max-rms` value that is not a float, a missing or
surplus positional) aborts the process with a usage message on standard
error and exit status 2. -/

/-- One command-line token, classified the way the configured parser sees
it. A `--max-rms` value carries `none` when the text does not parse as a
Python float. -/
inductive CliArg where
  | positional (s : String) : CliArg
  | outOpt (v : String) : CliArg
  | maxRmsOpt (v : Option ℚ) : CliArg
  | unknownOpt (s : String) : CliArg
deriving DecidableEq, Repr

/-- Number of positional arguments on the command line. -/
def numPositionals (argv : List CliArg) : Nat :=
  (argv.filter fun x =>
    match x with
    | CliArg.positional _ => true
    | _ => false).length

/-- Left-to-right argument consumption of the configured parser:
accumulates positionals and the latest option values, and fails on any
unrecognized option or non-float `--max-rms` value; at the end exactly the
two positionals `baseline` and `current` must have been seen. -/
def parseArgsAux : List CliArg → List String → String → ℚ → Option Args
  | [], ps, o, m =>
    match ps with
    | [b, c] => some ⟨b, c, o, m⟩
    | _ => none
  | CliArg.positional s :: rest, ps, o, m => parseArgsAux rest (ps ++ [s]) o m
  | CliArg.outOpt v :: rest, ps, _, m => parseArgsAux rest ps v m
  | CliArg.maxRmsOpt (some q) :: rest, ps, o, _ => parseArgsAux rest ps o q
  | CliArg.maxRmsOpt none :: _, _, _, _ => none
  | CliArg.unknownOpt _ :: _, _, _, _ => none

/-- `parser.parse_args()` for the parser configured in `main`, with the
defaults `--out diff.png` and `--max-rms 0.0`; `none` models an argparse
parse error. -/
def parseArgs (argv : List CliArg) : Option Args :=
  parseArgsAux argv [] "diff.png" 0

/-- The whole invocation: argument parsing, then the body of `main`. On a
parse error argparse prints a usage message to standard error and exits
the process with status 2. -/
def mainRun (argv : List CliArg) (pillow : Bool) (loadB loadC : Option Image) : RunResult :=
  match parseArgs argv with
  | none => ⟨2, [], [Msg.usage], none⟩
  | some a => run pillow loadB loadC a

/-! ### Concrete sample data used by the witnesses -/

/-- A solid red RGBA pixel. -/
def redPixel : Pixel := ⟨255, 0, 0, 255⟩

/-- A 2-by-2 solid red image. -/
def red2x2 : Image := ⟨2, 2, [redPixel, redPixel, redPixel, redPixel]⟩

/-- A 2-by-2 image that differs from `red2x2` in one pixel: its last pixel
has red channel 251, so each per-pixel red difference is 0, 0, 0, 4, the
red channel RMS square is 16 / 4 = 4 and the aggregate RMS square is
(4 + 0 + 0 + 0) / 4 = 1. -/
def red2x2Tweaked : Image :=
  ⟨2, 2, [⟨255, 0, 0, 255⟩, ⟨255, 0, 0, 255⟩, ⟨255, 0, 0, 255⟩, ⟨251, 0, 0, 255⟩]⟩

/-- A 10-by-10 solid red image. -/
def img10 : Image := ⟨10, 10, List.replicate 100 redPixel⟩

/-- A 20-by-20 solid red image. -/
def img20 : Image := ⟨20, 20, List.replicate 400 redPixel⟩

/-- The default arguments of the tool. -/
def defaultArgs : Args := ⟨"baseline.png", "current.png", "diff.png", 0⟩

/-! ### Basic lemmas about the RMS computation -/

theorem channelRmsSq_nonneg (im : Image) (ch : Fin 4) : 0 ≤ channelRmsSq im ch := by
  unfold channelRmsSq
  positivity

theorem aggRmsSq_nonneg (im : Image) : 0 ≤ aggRmsSq im := by
  unfold aggRmsSq
  apply div_nonneg _ (Nat.cast_nonneg _)
  unfold rmsChannelsSq
  simp only [List.sum_cons, List.sum_nil]
  have h0 := channelRmsSq_nonneg im 0
  have h1 := channelRmsSq_nonneg im 1
  have h2 := channelRmsSq_nonneg im 2
  have h3 := channelRmsSq_nonneg im 3
  linarith

/-- The aggregate RMS is the square root of the exact rational `aggRmsSq`. -/
theorem aggRms_eq_sqrt (im : Image) :
    aggRms im = Real.sqrt ((aggRmsSq im : ℚ) : ℝ) := by
  have h : ∀ ch : Fin 4,
      Real.sqrt ((channelRmsSq im ch : ℚ) : ℝ) * Real.sqrt ((channelRmsSq im ch : ℚ) : ℝ) =
        ((channelRmsSq im ch : ℚ) : ℝ) :=
    fun ch => Real.mul_self_sqrt (by exact_mod_cast channelRmsSq_nonneg im ch)
  unfold aggRms aggRmsSq rmsChannels rmsChannelsSq channelRms
  congr 1
  simp only [List.map_cons, List.map_nil, List.sum_cons, List.sum_nil, List.length_cons,
    List.length_nil, h]
  push_cast
  norm_num

/-- The boolean `rmsLeB` decides the source comparison `rms <= max_rms`. -/
theorem rmsLeB_iff (q t : ℚ) :
    rmsLeB q t = true ↔ Real.sqrt ((q : ℚ) : ℝ) ≤ ((t : ℚ) : ℝ) := by
  rw [Real.sqrt_le_iff]
  unfold rmsLeB
  simp only [Bool.and_eq_true, decide_eq_true_eq]
  constructor
  · rintro ⟨h1, h2⟩
    refine ⟨by exact_mod_cast h1, ?_⟩
    have h2r : ((q : ℚ) : ℝ) ≤ ((t * t : ℚ) : ℝ) := by exact_mod_cast h2
    calc ((q : ℚ) : ℝ) ≤ ((t * t : ℚ) : ℝ) := h2r
      _ = ((t : ℚ) : ℝ) ^ 2 := by push_cast; ring
  · rintro ⟨h1, h2⟩
    refine ⟨by exact_mod_cast h1, ?_⟩
    have h2q : ((q : ℚ) : ℝ) ≤ ((t * t : ℚ) : ℝ) := by
      calc ((q : ℚ) : ℝ) ≤ ((t : ℚ) : ℝ) ^ 2 := h2
        _ = ((t * t : ℚ) : ℝ) := by push_cast; ring
    exact_mod_cast h2q

/-- The boolean `rmsPos` decides the source comparison `rms > 0`. -/
theorem rmsPos_iff (q : ℚ) :
    rmsPos q = true ↔ 0 < Real.sqrt ((q : ℚ) : ℝ) := by
  rw [Real.sqrt_pos]
  unfold rmsPos
  simp only [decide_eq_true_eq]
  exact_mod_cast Iff.rfl

/-! ### Structural lemmas about the difference image -/

theorem pixelDiff_channel (p q : Pixel) (ch : Fin 4) :
    (pixelDiff p q).channel ch = natAbsDiff (p.channel ch) (q.channel ch) := by
  fin_cases ch <;> rfl

theorem pixelDiff_self (p : Pixel) : pixelDiff p p = ⟨0, 0, 0, 0⟩ := by
  unfold pixelDiff natAbsDiff
  simp

theorem zeroPixel_channel (ch : Fin 4) : Pixel.channel ⟨0, 0, 0, 0⟩ ch = 0 := by
  fin_cases ch <;> rfl

/-- The sum of squares of one channel of the difference image is the sum of
squared absolute per-pixel channel differences. -/
theorem sumSq_difference (b c : Image) (ch : Fin 4) :
    sumSq (difference b c) ch = (((specChannelDiffs b c ch).map fun d => d * d)).sum := by
  unfold sumSq difference specChannelDiffs
  rw [List.map_zipWith, List.map_zipWith]
  simp only [pixelDiff_channel]

/-- For well-formed same-sized inputs the difference lists have one entry
per raster cell of the difference image. -/
theorem specChannelDiffs_length (b c : Image) (ch : Fin 4) (hb : b.wf) (hc : c.wf)
    (hsize : b.size = c.size) :
    (specChannelDiffs b c ch).length = pixelCount (difference b c) := by
  have hw : b.width = c.width := congrArg Prod.fst hsize
  have hh : b.height = c.height := congrArg Prod.snd hsize
  unfold specChannelDiffs pixelCount difference
  rw [List.length_zipWith, hb, hc]
  rw [hw, hh, min_self]

/-- Unfolding of the body of `main` past the size check. -/
theorem run_same_size (b c : Image) (a : Args) (hsize : b.size = c.size) :
    run true (some b) (some c) a =
      if rmsLeB (aggRmsSq (difference b c)) a.maxRms then
        ⟨0, [], [],
          if rmsPos (aggRmsSq (difference b c)) then some (a.out, difference b c) else none⟩
      else
        ⟨1, [Msg.imagesDiffer (aggRmsSq (difference b c)) a.maxRms a.out], [],
          if rmsPos (aggRmsSq (difference b c)) then some (a.out, difference b c) else none⟩ := by
  unfold run
  simp [hsize]

/-- Unfolding of the body of `main` at the size check. -/
theorem run_size_mismatch (b c : Image) (a : Args) (hsize : b.size ≠ c.size) :
    run true (some b) (some c) a = ⟨1, [], [Msg.differentSizes b.size c.size], none⟩ := by
  unfold run
  simp [hsize]

/-- The persisted artifact of a comparison run: the diff image at the
output path exactly when the RMS is positive. -/
theorem run_written (b c : Image) (a : Args) (hsize : b.size = c.size) :
    (run true (some b) (some c) a).written =
      if rmsPos (aggRmsSq (difference b c)) then some (a.out, difference b c) else none := by
  rw [run_same_size b c a hsize]
  by_cases hb : rmsLeB (aggRmsSq (difference b c)) a.maxRms = true
  · rw [if_pos hb]
  · rw [if_neg hb]

/-- The difference image of two images with the same pixel data has zero
channel sums. -/
theorem sumSq_zip_self (l : List Pixel) (ch : Fin 4) :
    ((List.zipWith pixelDiff l l).map fun p => p.channel ch * p.channel ch).sum = 0 := by
  induction l with
  | nil => rfl
  | cons x xs ih =>
    simp only [List.zipWith_cons_cons, List.map_cons, List.sum_cons, pixelDiff_self,
      zeroPixel_channel, Nat.zero_mul, Nat.zero_add]
    exact ih

/-- Pixelwise-identical inputs have aggregate RMS square zero. -/
theorem aggRmsSq_self (b c : Image) (hpix : b.pixels = c.pixels) :
    aggRmsSq (difference b c) = 0 := by
  have hsum : ∀ ch : Fin 4, sumSq (difference b c) ch = 0 := by
    intro ch
    show ((difference b c).pixels.map fun p => p.channel ch * p.channel ch).sum = 0
    have hd : (difference b c).pixels = List.zipWith pixelDiff c.pixels c.pixels := by
      unfold difference
      rw [hpix]
    rw [hd]
    exact sumSq_zip_self c.pixels ch
  unfold aggRmsSq rmsChannelsSq channelRmsSq
  simp [hsum]

/-! ### Lemmas about the argument parser -/

theorem numPositionals_cons_pos (s : String) (rest : List CliArg) :
    numPositionals (CliArg.positional s :: rest) = numPositionals rest + 1 := by
  unfold numPositionals
  simp [List.filter_cons]

theorem numPositionals_cons_out (v : String) (rest : List CliArg) :
    numPositionals (CliArg.outOpt v :: rest) = numPositionals rest := by
  unfold numPositionals
  simp [List.filter_cons]

theorem numPositionals_cons_maxRms (v : Option ℚ) (rest : List CliArg) :
    numPositionals (CliArg.maxRmsOpt v :: rest) = numPositionals rest := by
  unfold numPositionals
  simp [List.filter_cons]

/-- An unrecognized option anywhere on the command line makes parsing fail. -/
theorem parseArgsAux_unknown (argv : List CliArg) (s : String)
    (hmem : CliArg.unknownOpt s ∈ argv) :
    ∀ ps o m, parseArgsAux argv ps o m = none := by
  induction argv with
  | nil => cases hmem
  | cons x rest ih =>
    intro ps o m
    rcases List.mem_cons.mp hmem with hx | hmem2
    · rw [← hx]; rfl
    · cases x with
      | positional s2 => exact ih hmem2 _ _ _
      | outOpt v => exact ih hmem2 _ _ _
      | maxRmsOpt v =>
        cases v with
        | none => rfl
        | some q => exact ih hmem2 _ _ _
      | unknownOpt s2 => rfl

/-- A `--max-rms` value that does not parse as a float makes parsing fail. -/
theorem parseArgsAux_badFloat (argv : List CliArg)
    (hmem : CliArg.maxRmsOpt none ∈ argv) :
    ∀ ps o m, parseArgsAux argv ps o m = none := by
  induction argv with
  | nil => cases hmem
  | cons x rest ih =>
    intro ps o m
    rcases List.mem_cons.mp hmem with hx | hmem2
    · rw [← hx]; rfl
    · cases x with
      | positional s2 => exact ih hmem2 _ _ _
      | outOpt v => exact ih hmem2 _ _ _
      | maxRmsOpt v =>
        cases v with
        | none => rfl
        | some q => exact ih hmem2 _ _ _
      | unknownOpt s2 => rfl

/-- A successful parse consumes exactly two positional arguments in total. -/
theorem parseArgsAux_positionals (argv : List CliArg) :
    ∀ ps o m a, parseArgsAux argv ps o m = some a →
      ps.length + numPositionals argv = 2 := by
  induction argv with
  | nil =>
    intro ps o m a h
    match ps with
    | [] => simp [parseArgsAux] at h
    | [x] => simp [parseArgsAux] at h
    | [x, y] => simp [numPositionals]
    | x :: y :: z :: rest => simp [parseArgsAux] at h
  | cons x rest ih =>
    intro ps o m a h
    cases x with
    | positional s =>
      have := ih (ps ++ [s]) o m a h
      rw [numPositionals_cons_pos]
      simp only [List.length_append, List.length_cons, List.length_nil] at this
      omega
    | outOpt v =>
      have := ih ps v m a h
      rw [numPositionals_cons_out]
      exact this
    | maxRmsOpt v =>
      cases v with
      | none => simp [parseArgsAux] at h
      | some q =>
        have := ih ps o q a h
        rw [numPositionals_cons_maxRms]
        exact this
    | unknownOpt s => simp [parseArgsAux] at h

/-! ### The claims -/

/-- C1: for every invocation where both images load successfully and have
equal (width, height), the tool exits 0 with no stdout/stderr message if
the aggregate RMS is at most `max_rms`, and otherwise exits 1 after
printing exactly one line to standard output reporting the RMS value, the
threshold, and the output path. -/
theorem claim_C1_threshold_decision (b c : Image) (a : Args) (hsize : b.size = c.size) :
    (aggRms (difference b c) ≤ ((a.maxRms : ℚ) : ℝ) →
      (run true (some b) (some c) a).exitCode = 0 ∧
      (run true (some b) (some c) a).stdout = [] ∧
      (run true (some b) (some c) a).stderr = []) ∧
    (((a.maxRms : ℚ) : ℝ) < aggRms (difference b c) →
      (run true (some b) (some c) a).exitCode = 1 ∧
      (run true (some b) (some c) a).stdout =
        [Msg.imagesDiffer (aggRmsSq (difference b c)) a.maxRms a.out] ∧
      (run true (some b) (some c) a).stderr = []) := by
  rw [run_same_size b c a hsize]
  constructor
  · intro hle
    rw [aggRms_eq_sqrt] at hle
    have hb : rmsLeB (aggRmsSq (difference b c)) a.maxRms = true :=
      (rmsLeB_iff _ _).mpr hle
    simp [hb]
  · intro hgt
    rw [aggRms_eq_sqrt] at hgt
    have hb : rmsLeB (aggRmsSq (difference b c)) a.maxRms = false := by
      rw [Bool.eq_false_iff]
      intro htrue
      have := (rmsLeB_iff _ _).mp htrue
      linarith
    simp [hb]

theorem claim_C1_threshold_decision_witness :
    red2x2.size = red2x2.size ∧
    aggRms (difference red2x2 red2x2) ≤ ((defaultArgs.maxRms : ℚ) : ℝ) ∧
    (run true (some red2x2) (some red2x2) defaultArgs).exitCode = 0 ∧
    (run true (some red2x2) (some red2x2) defaultArgs).stdout = [] ∧
    (run true (some red2x2) (some red2x2) defaultArgs).stderr = [] := by
  have hq : aggRmsSq (difference red2x2 red2x2) = 0 := aggRmsSq_self _ _ rfl
  have hle : aggRms (difference red2x2 red2x2) ≤ ((defaultArgs.maxRms : ℚ) : ℝ) := by
    rw [aggRms_eq_sqrt, hq]
    simp [defaultArgs]
  exact ⟨rfl, hle, (claim_C1_threshold_decision red2x2 red2x2 defaultArgs rfl).1 hle⟩

/-- C2: for every pair of same-sized well-formed RGBA images, the aggregate
RMS the source computes equals the specification formula:
`sqrt(mean over the 4 channels of channel_rms^2)` where each `channel_rms`
is the root-mean-square over all pixels of that channel of the absolute
per-pixel difference between the two images. -/
theorem claim_C2_rms_formula (b c : Image) (hb : b.wf) (hc : c.wf)
    (hsize : b.size = c.size) :
    aggRms (difference b c) = specAggRms b c := by
  rw [aggRms_eq_sqrt]
  unfold specAggRms
  congr 1
  have hch : ∀ ch : Fin 4, specChannelRms b c ch ^ 2 =
      ((channelRmsSq (difference b c) ch : ℚ) : ℝ) := by
    intro ch
    unfold specChannelRms
    rw [Real.sq_sqrt (by positivity)]
    unfold channelRmsSq
    rw [sumSq_difference, specChannelDiffs_length b c ch hb hc hsize]
    rw [Rat.cast_div, Rat.cast_natCast, Rat.cast_natCast]
  have hagg : ((aggRmsSq (difference b c) : ℚ) : ℝ) =
      (((channelRmsSq (difference b c) 0 : ℚ) : ℝ) +
        ((channelRmsSq (difference b c) 1 : ℚ) : ℝ) +
        ((channelRmsSq (difference b c) 2 : ℚ) : ℝ) +
        ((channelRmsSq (difference b c) 3 : ℚ) : ℝ)) / 4 := by
    unfold aggRmsSq rmsChannelsSq
    simp only [List.sum_cons, List.sum_nil, List.length_cons, List.length_nil]
    push_cast
    ring
  rw [hagg, Fin.sum_univ_four]
  simp only [hch]

theorem claim_C2_rms_formula_witness :
    red2x2.wf ∧ red2x2Tweaked.wf ∧ red2x2.size = red2x2Tweaked.size ∧
    aggRms (difference red2x2 red2x2Tweaked) = specAggRms red2x2 red2x2Tweaked :=
  ⟨by decide, by decide, rfl,
    claim_C2_rms_formula red2x2 red2x2Tweaked (by decide) (by decide) rfl⟩

/-- C3: for every invocation where both images load but their
(width, height) pairs differ, the tool prints exactly one line to standard
error stating both sizes and exits 1, regardless of `--max-rms`, without
writing a diff image file. -/
theorem claim_C3_size_mismatch (b c : Image) (a : Args) (hsize : b.size ≠ c.size) :
    run true (some b) (some c) a = ⟨1, [], [Msg.differentSizes b.size c.size], none⟩ := by
  unfold run
  simp [hsize]

theorem claim_C3_size_mismatch_witness :
    img10.size ≠ img20.size ∧
    run true (some img10) (some img20) defaultArgs =
      ⟨1, [], [Msg.differentSizes (10, 10) (20, 20)], none⟩ :=
  ⟨by decide, claim_C3_size_mismatch img10 img20 defaultArgs (by decide)⟩

/-- C4: for every invocation reaching the comparison step, the diff image
is written to the out path if and only if the aggregate RMS is strictly
greater than zero, irrespective of the threshold; in particular, for
pixelwise-identical images no diff file is ever written. -/
theorem claim_C4_diff_written_iff (b c : Image) (a : Args) (hsize : b.size = c.size) :
    ((run true (some b) (some c) a).written = some (a.out, difference b c) ↔
      0 < aggRms (difference b c)) ∧
    ((run true (some b) (some c) a).written = none ↔ aggRms (difference b c) = 0) := by
  rw [run_written b c a hsize, aggRms_eq_sqrt]
  cases hp : rmsPos (aggRmsSq (difference b c)) with
  | true =>
    have hpos : 0 < Real.sqrt ((aggRmsSq (difference b c) : ℚ) : ℝ) :=
      (rmsPos_iff _).mp hp
    rw [if_pos rfl]
    constructor
    · simp [hpos]
    · simp [hpos.ne']
  | false =>
    have hnp : ¬ (0 < Real.sqrt ((aggRmsSq (difference b c) : ℚ) : ℝ)) := by
      intro h
      have := (rmsPos_iff (aggRmsSq (difference b c))).mpr h
      rw [hp] at this
      exact Bool.false_ne_true this
    have hz : Real.sqrt ((aggRmsSq (difference b c) : ℚ) : ℝ) = 0 :=
      le_antisymm (not_lt.mp hnp) (Real.sqrt_nonneg _)
    rw [if_neg (by simp)]
    constructor
    · simp [hnp]
    · simp [hz]

theorem claim_C4_diff_written_iff_witness :
    red2x2.size = red2x2Tweaked.size ∧
    ((run true (some red2x2) (some red2x2Tweaked) defaultArgs).written =
        some (defaultArgs.out, difference red2x2 red2x2Tweaked) ↔
      0 < aggRms (difference red2x2 red2x2Tweaked)) :=
  ⟨rfl, (claim_C4_diff_written_iff red2x2 red2x2Tweaked defaultArgs rfl).1⟩

/-- C5: the tool exits with code 2 if and only if the imaging dependency is
unavailable or an input image cannot be opened; in each such case it emits
exactly one descriptive message to standard error (and nothing to standard
output), and no other invocation past argument parsing yields exit code 2. -/
theorem claim_C5_exit2_iff (p : Bool) (lb lc : Option Image) (a : Args) :
    ((run p lb lc a).exitCode = 2 ↔ p = false ∨ lb = none ∨ lc = none) ∧
    ((run p lb lc a).exitCode = 2 →
      (run p lb lc a).stderr.length = 1 ∧ (run p lb lc a).stdout = []) := by
  cases p with
  | false => unfold run; simp
  | true =>
    cases lb with
    | none => unfold run; simp
    | some b =>
      cases lc with
      | none => unfold run; simp
      | some c =>
        by_cases hs : b.size = c.size
        · rw [run_same_size b c a hs]
          by_cases hb : rmsLeB (aggRmsSq (difference b c)) a.maxRms = true
          · rw [if_pos hb]; simp
          · rw [if_neg hb]; simp
        · rw [run_size_mismatch b c a hs]; simp

theorem claim_C5_exit2_iff_witness :
    ((run false none none defaultArgs).exitCode = 2 ↔
      false = false ∨ (none : Option Image) = none ∨ (none : Option Image) = none) ∧
    ((run false none none defaultArgs).exitCode = 2 →
      (run false none none defaultArgs).stderr.length = 1 ∧
      (run false none none defaultArgs).stdout = []) :=
  claim_C5_exit2_iff false none none defaultArgs

/-- C6: for a fixed pair of input images the outcome is monotone in the
threshold: if the tool exits 0 at threshold `t`, it exits 0 at every
threshold `t2 ≥ t`. -/
theorem claim_C6_threshold_monotone (p : Bool) (lb lc : Option Image)
    (bp cp o : String) (t t2 : ℚ) (hle : t ≤ t2)
    (h0 : (run p lb lc ⟨bp, cp, o, t⟩).exitCode = 0) :
    (run p lb lc ⟨bp, cp, o, t2⟩).exitCode = 0 := by
  cases p with
  | false => unfold run at h0; simp at h0
  | true =>
    cases lb with
    | none => unfold run at h0; simp at h0
    | some b =>
      cases lc with
      | none => unfold run at h0; simp at h0
      | some c =>
        by_cases hs : b.size = c.size
        · rw [run_same_size b c ⟨bp, cp, o, t⟩ hs] at h0
          rw [run_same_size b c ⟨bp, cp, o, t2⟩ hs]
          by_cases hb : rmsLeB (aggRmsSq (difference b c)) (Args.mk bp cp o t).maxRms = true
          · have hb2 : rmsLeB (aggRmsSq (difference b c)) (Args.mk bp cp o t2).maxRms = true := by
              unfold rmsLeB at hb ⊢
              simp only [Bool.and_eq_true, decide_eq_true_eq] at hb ⊢
              obtain ⟨h1, h2⟩ := hb
              refine ⟨le_trans h1 hle, le_trans h2 ?_⟩
              exact mul_le_mul hle hle h1 (le_trans h1 hle)
            rw [if_pos hb2]
          · rw [if_neg hb] at h0
            simp at h0
        · unfold run at h0
          simp [hs] at h0

theorem claim_C6_threshold_monotone_witness :
    (1 : ℚ) ≤ 2 ∧
    (run true (some red2x2) (some red2x2Tweaked) ⟨"b.png", "c.png", "d.png", 1⟩).exitCode = 0 ∧
    (run true (some red2x2) (some red2x2Tweaked) ⟨"b.png", "c.png", "d.png", 2⟩).exitCode = 0 := by
  have hq : aggRmsSq (difference red2x2 red2x2Tweaked) = 1 := by
    norm_num [aggRmsSq, rmsChannelsSq, channelRmsSq, sumSq, difference, pixelCount, red2x2,
      red2x2Tweaked, redPixel, pixelDiff, natAbsDiff, Pixel.channel]
  have h0 : (run true (some red2x2) (some red2x2Tweaked)
      ⟨"b.png", "c.png", "d.png", 1⟩).exitCode = 0 := by
    rw [run_same_size red2x2 red2x2Tweaked ⟨"b.png", "c.png", "d.png", 1⟩ rfl, hq]
    norm_num [rmsLeB]
  exact ⟨by norm_num, h0,
    claim_C6_threshold_monotone true (some red2x2) (some red2x2Tweaked)
      "b.png" "c.png" "d.png" 1 2 (by norm_num) h0⟩

/-- C7 (counterexample): an invocation on two identical images with the
default threshold exits 0 and writes no line at all to standard output or
standard error, refuting "on every invocation, the tool writes exactly one
line to standard output or standard error". -/
theorem claim_C7_counterexample :
    (run true (some red2x2) (some red2x2) defaultArgs).exitCode = 0 ∧
    (run true (some red2x2) (some red2x2) defaultArgs).stdout.length +
      (run true (some red2x2) (some red2x2) defaultArgs).stderr.length = 0 := by
  have hq : aggRmsSq (difference red2x2 red2x2) = 0 := aggRmsSq_self _ _ rfl
  rw [run_same_size _ _ _ rfl, hq]
  norm_num [rmsLeB, rmsPos, defaultArgs]

/-- C7 (amended): on every invocation the tool writes at most one line to
standard output or standard error; it writes none exactly when it exits 0
(the Identical outcome), and exactly one line otherwise. -/
theorem claim_C7_at_most_one_line (p : Bool) (lb lc : Option Image) (a : Args) :
    ((run p lb lc a).stdout.length + (run p lb lc a).stderr.length ≤ 1) ∧
    ((run p lb lc a).exitCode = 0 ↔
      (run p lb lc a).stdout = [] ∧ (run p lb lc a).stderr = []) := by
  cases p with
  | false => unfold run; simp
  | true =>
    cases lb with
    | none => unfold run; simp
    | some b =>
      cases lc with
      | none => unfold run; simp
      | some c =>
        by_cases hs : b.size = c.size
        · rw [run_same_size b c a hs]
          by_cases hb : rmsLeB (aggRmsSq (difference b c)) a.maxRms = true
          · rw [if_pos hb]; simp
          · rw [if_neg hb]; simp
        · rw [run_size_mismatch b c a hs]; simp

/-- C8: the tool is deterministic: two runs on equal inputs (dependency
availability, loaded images and arguments) produce identical results,
including the exit code and the persisted diff image bytes. -/
theorem claim_C8_deterministic (p1 p2 : Bool) (lb1 lb2 lc1 lc2 : Option Image)
    (a1 a2 : Args) (hp : p1 = p2) (hb : lb1 = lb2) (hc : lc1 = lc2) (ha : a1 = a2) :
    run p1 lb1 lc1 a1 = run p2 lb2 lc2 a2 := by
  rw [hp, hb, hc, ha]

theorem claim_C8_deterministic_witness :
    (true = true) ∧
    run true (some red2x2) (some red2x2Tweaked) defaultArgs =
      run true (some red2x2) (some red2x2Tweaked) defaultArgs :=
  ⟨rfl, claim_C8_deterministic true true (some red2x2) (some red2x2)
    (some red2x2Tweaked) (some red2x2Tweaked) defaultArgs defaultArgs rfl rfl rfl rfl⟩

/-- C9: with a strictly negative `--max-rms` and two same-sized RGBA images
with identical pixel data (aggregate RMS 0), the tool exits 1 and prints
the standard-output message that claims `Wrote <out>` even though no diff
image file was written. -/
theorem claim_C9_negative_threshold (b c : Image) (a : Args)
    (hpix : b.pixels = c.pixels) (hsize : b.size = c.size) (hneg : a.maxRms < 0) :
    run true (some b) (some c) a =
      ⟨1, [Msg.imagesDiffer 0 a.maxRms a.out], [], none⟩ := by
  have hq : aggRmsSq (difference b c) = 0 := aggRmsSq_self b c hpix
  rw [run_same_size b c a hsize, hq]
  have h1 : rmsPos (0 : ℚ) = false := by norm_num [rmsPos]
  have h2 : rmsLeB (0 : ℚ) a.maxRms = false := by
    unfold rmsLeB
    simp [not_le.mpr hneg]
  simp [h1, h2]

theorem claim_C9_negative_threshold_witness :
    red2x2.pixels = red2x2.pixels ∧ red2x2.size = red2x2.size ∧
    ((⟨"b.png", "c.png", "d.png", -1⟩ : Args).maxRms < 0) ∧
    run true (some red2x2) (some red2x2) ⟨"b.png", "c.png", "d.png", -1⟩ =
      ⟨1, [Msg.imagesDiffer 0 (-1) "d.png"], [], none⟩ :=
  ⟨rfl, rfl, by norm_num,
    claim_C9_negative_threshold red2x2 red2x2 ⟨"b.png", "c.png", "d.png", -1⟩
      rfl rfl (by norm_num)⟩

/-- C10: an invocation with malformed command-line arguments (a missing
positional, a non-float `--max-rms` value, or an unrecognized option)
terminates during argument parsing with a usage message on standard error
and exit status 2. -/
theorem claim_C10_argparse_errors (argv : List CliArg) (p : Bool)
    (lb lc : Option Image)
    (h : (∃ s, CliArg.unknownOpt s ∈ argv) ∨ CliArg.maxRmsOpt none ∈ argv ∨
      numPositionals argv < 2) :
    mainRun argv p lb lc = ⟨2, [], [Msg.usage], none⟩ := by
  have hnone : parseArgs argv = none := by
    unfold parseArgs
    rcases h with ⟨s, hmem⟩ | hmem | hcount
    · exact parseArgsAux_unknown argv s hmem [] _ _
    · exact parseArgsAux_badFloat argv hmem [] _ _
    · cases hp : parseArgsAux argv [] "diff.png" 0 with
      | none => rfl
      | some a =>
        have hlen := parseArgsAux_positionals argv [] "diff.png" 0 a hp
        simp only [List.length_nil, Nat.zero_add] at hlen
        omega
  unfold mainRun
  rw [hnone]

theorem claim_C10_argparse_errors_witness :
    numPositionals [CliArg.positional "baseline.png"] < 2 ∧
    mainRun [CliArg.positional "baseline.png"] true none none =
      ⟨2, [], [Msg.usage], none⟩ :=
  ⟨by decide,
    claim_C10_argparse_errors [CliArg.positional "baseline.png"] true none none
      (Or.inr (Or.inr (by decide)))⟩

end ImgDiff
